import Mathlib

/-!
Verification of the cost-allocation engine (`app.py`).

Shallow embedding of the LINE-bot shared-cost ledger (`src/app.py`,
V6.5).  The stateful PostgreSQL tables are embedded as explicit list-valued
state (`DB`); each handler becomes a pure function from the old state to a
result carrying the new state.  Python integer arithmetic on the
non-negative quantities that appear here (`//`, `%`) coincides with `Nat`
division and modulus; the one place a difference can go negative
(`final_cost_to_settle = cost_amount - total_fixed_cost_deducted` in
`handle_settle_monthly_cost`) is computed in `Int`, exactly as Python
does.
-/

/- ## Calendar arithmetic

`datetime.date.weekday()` returns 0 = Monday … 6 = Sunday.  We implement
the day-of-week of a Gregorian date with Sakamoto's method (0 = Sunday)
and shift it to Python's convention. -/

def isLeapYear (y : Nat) : Bool :=
  (y % 4 == 0 && y % 100 != 0) || y % 400 == 0

def daysInMonth (y m : Nat) : Nat :=
  if m == 2 then (if isLeapYear y then 29 else 28)
  else if m == 4 || m == 6 || m == 9 || m == 11 then 30
  else 31

def sakamotoTable : List Nat := [0, 3, 2, 5, 0, 3, 5, 1, 4, 6, 2, 4]

/-- Day of week of a Gregorian date, 0 = Sunday … 6 = Saturday. -/
def dayOfWeekSun0 (y m d : Nat) : Nat :=
  let y' := if m < 3 then y - 1 else y
  (y' + y' / 4 - y' / 100 + y' / 400 + sakamotoTable.getD (m - 1) 0 + d) % 7

structure Date where
  year : Nat
  month : Nat
  day : Nat
deriving DecidableEq, Repr

/-- Python's `date.weekday()`: 0 = Monday … 6 = Sunday. -/
def pythonWeekday (d : Date) : Nat :=
  (dayOfWeekSun0 d.year d.month d.day + 6) % 7

/-- `1 <= month <= 12` and `1 <= day <= length of the month`: exactly the
dates `datetime.strptime(f'{y}/{m}/{d}', '%Y/%m/%d')` accepts. -/
def validDate (d : Date) : Bool :=
  1 ≤ d.month && d.month ≤ 12 && 1 ≤ d.day && d.day ≤ daysInMonth d.year d.month

/- ## Character-level text model

The interpreter works on raw message text; we model text as `List Char`.
Python's `str.strip()` / `str.split()` split on Unicode whitespace; the
whitespace actually reachable through LINE messages is covered below
(ASCII whitespace and the ideographic space U+3000). -/

def isSpaceChar (c : Char) : Bool :=
  c == ' ' || c == '\t' || c == '\n' || c == '\r' || c.toNat == 0x3000

def isDigitChar (c : Char) : Bool := '0' ≤ c && c ≤ '9'

def digitVal (c : Char) : Nat := c.toNat - '0'.toNat

/-- Python's `re` word class `\w` (Unicode mode) on the character ranges
exercised by this bot: ASCII alphanumerics, underscore, and CJK unified
ideographs (the weekday markers 一…日 are CJK ideographs). -/
def isWordChar (c : Char) : Bool :=
  c.isAlphanum || c == '_' || (0x4E00 ≤ c.toNat && c.toNat ≤ 0x9FFF)

def isOpenParen (c : Char) : Bool := c == '(' || c == '（'

def isCloseParen (c : Char) : Bool := c == ')' || c == '）'

/-- `str.strip()`. -/
def stripChars (cs : List Char) : List Char :=
  ((cs.dropWhile isSpaceChar).reverse.dropWhile isSpaceChar).reverse

/-- `str.split()` (split on runs of whitespace, dropping empty pieces). -/
def splitWsAux : List Char → List Char → List String
  | [], acc => if acc.isEmpty then [] else [String.mk acc.reverse]
  | c :: cs, acc =>
    if isSpaceChar c then
      if acc.isEmpty then splitWsAux cs [] else String.mk acc.reverse :: splitWsAux cs []
    else splitWsAux cs (c :: acc)

def splitWs (cs : List Char) : List String := splitWsAux cs []

/-- Numeric value of a digit string, most significant first (`int(...)` on
a `\d+` match). -/
def natOfDigits (ds : List Char) : Nat :=
  ds.foldl (fun acc c => 10 * acc + digitVal c) 0

/- ## The record-command interpreter (`parse_record_command`, app.py 231-295) -/

/-- Matches `\d{1,2}` at the head of the input (greedy).  Because the
character that must follow the digits in the date regex (`/`, `(`)
is never itself a digit, greedy matching without backtracking is
equivalent to the regex engine's behaviour. -/
def matchNum12 : List Char → Option (Nat × List Char)
  | [] => none
  | [c] => if isDigitChar c then some (digitVal c, []) else none
  | c1 :: c2 :: rest =>
    if isDigitChar c1 then
      if isDigitChar c2 then some (10 * digitVal c1 + digitVal c2, rest)
      else some (digitVal c1, c2 :: rest)
    else none

/-- `re.match(r'^(\d{1,2}/\d{1,2})[\(\（](\w)[\)\）]', text)`: returns
`(month, day, weekday marker, text after the match)`. -/
def matchDateHead (cs : List Char) : Option (Nat × Nat × Char × List Char) :=
  match matchNum12 cs with
  | none => none
  | some (m, r1) =>
    match r1 with
    | '/' :: r2 =>
      match matchNum12 r2 with
      | none => none
      | some (d, r3) =>
        match r3 with
        | p :: w :: q :: r4 =>
          if isOpenParen p && isWordChar w && isCloseParen q then some (m, d, w, r4)
          else none
        | _ => none
    | _ => none

/-- Year inference of `parse_record_command`: only the December→January and
January→December year boundaries are adjusted. -/
def inferYear (today : Date) (inputMonth : Nat) : Nat :=
  if today.month == 12 && inputMonth == 1 then today.year + 1
  else if today.month == 1 && inputMonth == 12 then today.year - 1
  else today.year

/-- `re.search(r'\s(\d+)$', remaining_text)` followed by
`remaining_text[:cost_match.start()].strip()`: the manual-cost token is a
maximal trailing digit run immediately preceded by a whitespace character.
Returns `(manual cost, text left of the whitespace, stripped)`. -/
def extractTrailingCost (cs : List Char) : Option Nat × List Char :=
  let ds := (cs.reverse.takeWhile isDigitChar).reverse
  let front := cs.take (cs.length - ds.length)
  match ds, front.getLast? with
  | [], _ => (none, cs)
  | _, none => (none, cs)
  | _ :: _, some c =>
    if isSpaceChar c then (some (natOfDigits ds), stripChars (front.dropLast))
    else (none, cs)

/-- The `'標準'` suffix check.  The source lowercases first
(`remaining_text.lower().endswith('標準')`); `str.lower` fixes both CJK
characters and no other character lowercases to them, so checking the last
two characters directly is equivalent. -/
def stripStandardTag (cs : List Char) : Bool × List Char :=
  match cs.reverse with
  | q :: b :: _ =>
    if b == '標' && q == '準' then (true, stripChars (cs.dropLast.dropLast))
    else (false, cs)
  | _ => (false, cs)

def FILTER_WORDS : List String := ["好", "桌5布4燈1", "架1"]

def COMPANY_NAME : String := "BOSS"

structure ParsedRecord where
  full_date : Date
  day_of_week : Char
  member_names : List String
  location_name : String
  manual_cost : Option Nat
  is_standard_mode : Bool
deriving DecidableEq, Repr

inductive ParseErr where
  | badDateFormat      -- "日期格式錯誤 (月/日(星期))"
  | invalidDate        -- "日期不存在 (例如 2月30日)"
  | tooFewTokens       -- "請至少指定一位人名和一個地點"
  | companyInMembers   -- "請勿在紀錄中包含 BOSS，..."
deriving DecidableEq, Repr

/-- `parse_record_command(text)` (app.py 231-295), with `date.today()`
passed explicitly. -/
def parseRecordCommand (today : Date) (cs : List Char) : Except ParseErr ParsedRecord :=
  match matchDateHead cs with
  | none => .error .badDateFormat
  | some (m, d, w, rest) =>
    let y := inferYear today m
    let fd : Date := ⟨y, m, d⟩
    if validDate fd then
      let remaining0 := stripChars rest
      let (isStd, remaining1) := stripStandardTag remaining0
      let (manualCost, remaining2) := extractTrailingCost remaining1
      let parts := (splitWs remaining2).filter (fun p => !(FILTER_WORDS.contains p))
      if parts.length < 2 then .error .tooFewTokens
      else
        let memberNames := parts.headD "" :: parts.drop 2
        let locationName := parts.getD 1 ""
        if memberNames.contains COMPANY_NAME then .error .companyInMembers
        else .ok ⟨fd, w, memberNames, locationName, manualCost, isStd⟩
    else .error .invalidDate

/- ## The ledger store (schema of `init_db`, app.py 36-151)

Rows of the PostgreSQL tables.  UUID project keys become `Nat` ids drawn
from a counter; `SERIAL` settlement ids likewise. -/

structure LocationCfg where
  weekday_cost : Nat
  weekend_cost : Nat
  linked_monthly_item : Option String
deriving DecidableEq, Repr

structure MonthlyItem where
  default_cost : Nat
  default_members : List String
deriving DecidableEq, Repr

structure ProjectRow where
  pid : Nat
  record_date : Date
  location_name : String
  total_fixed_cost : Nat
  member_cost_pool : Nat
  original_msg : String
deriving DecidableEq, Repr

structure SettlementRow where
  sid : Nat
  item_name : String
  settlement_date : Date
  cost_amount : Nat
  actual_members : List String
  original_msg : String
deriving DecidableEq, Repr

structure RecordRow where
  record_date : Date
  member_name : String
  project_id : Option Nat
  monthly_settlement_id : Option Nat
  cost_paid : Nat
  original_msg : String
deriving DecidableEq, Repr

structure DB where
  members : List String
  locations : List (String × LocationCfg)
  monthly_items : List (String × MonthlyItem)
  projects : List ProjectRow
  project_members : List (Nat × String)
  settlements : List SettlementRow
  records : List RecordRow
  next_pid : Nat
  next_sid : Nat
deriving DecidableEq, Repr

def lookupLocation (db : DB) (name : String) : Option LocationCfg :=
  (db.locations.find? (fun e => e.1 == name)).map (fun e => e.2)

def lookupMonthlyItem (db : DB) (name : String) : Option MonthlyItem :=
  (db.monthly_items.find? (fun e => e.1 == name)).map (fun e => e.2)

/-- `SELECT ... FROM projects WHERE record_date = %s AND location_name = %s`
with `fetchone()`. -/
def lookupProject (db : DB) (d : Date) (loc : String) : Option ProjectRow :=
  db.projects.find? (fun p => p.record_date == d && p.location_name == loc)

/-- Members of one project (`project_members` rows for its id). -/
def projectMembersOf (db : DB) (pid : Nat) : List String :=
  (db.project_members.filter (fun pm => pm.1 == pid)).map (fun pm => pm.2)

/-- The PK / FK constraints a batch of `project_members` + `records`
inserts must satisfy for the transaction to commit: the member names must
exist in `members` (FK) and, on the create paths, the list inserted into
`project_members` must have no duplicate (PK).  A violation raises and the
whole command rolls back. -/
def membersInsertable (db : DB) (ms : List String) : Bool :=
  ms.all (fun m => db.members.contains m) && db.members.contains COMPANY_NAME

/-- Strict lexicographic order on code points — exactly how Python
compares strings. -/
def ltChars : List Char → List Char → Bool
  | [], [] => false
  | [], _ :: _ => true
  | _ :: _, [] => false
  | a :: as, b :: bs =>
    if a.toNat < b.toNat then true
    else if b.toNat < a.toNat then false
    else ltChars as bs

def leStr (a b : String) : Bool := !(ltChars b.data a.data)

/-- Ordered insertion into an already sorted list. -/
def insertStr (a : String) : List String → List String
  | [] => [a]
  | b :: t => if leStr a b then a :: b :: t else b :: insertStr a t

/-- `sorted(...)` on strings: Python sorts by code points, which is the
lexicographic `String` order of Lean.  (Insertion sort; the inputs here
are duplicate-free, so any correct ascending sort agrees with Python's.) -/
def sortStr : List String → List String
  | [] => []
  | a :: t => insertStr a (sortStr t)

/- ## `handle_record_expense` (app.py 316-526) -/

inductive RecResult where
  | errParse (e : ParseErr)    -- "指令解析失敗"
  | errUnknownLocation         -- "地點 ... 不存在或尚未設定"
  | errNoMonthlyItem           -- "找不到連動月成本項目 ... 的固定金額"
  | errDbConstraint            -- FK/PK violation -> rollback, error reply
  | noNewMembers               -- "... 的紀錄已存在，且所有指定成員都已加入"
  | createdLinked (pid : Nat) (db' : DB)
  | createdStandard (pid : Nat) (db' : DB)
  | merged (pid : Nat) (db' : DB)
deriving DecidableEq, Repr

/-- `get_location_details` (app.py 298-313): pick the weekend rate when
`full_date.weekday() >= 5`, the weekday rate otherwise; also return the
linked monthly item. -/
def getLocationDetails (db : DB) (loc : String) (d : Date) : Option (Nat × Option String) :=
  (lookupLocation db loc).map (fun cfg =>
    (if 5 ≤ pythonWeekday d then cfg.weekend_cost else cfg.weekday_cost,
     cfg.linked_monthly_item))

/-- The single-tier even split of 核心邏輯 A (app.py 370-373) and of the
merge path (app.py 480-483): `total // (n+1)` per head, division remainder
added to the company's share. -/
def evenSplitShare (total n : Nat) : Nat := total / (n + 1)

def evenSplitCompany (total n : Nat) : Nat := total / (n + 1) + total % (n + 1)

/-- The rows written by 核心邏輯 A (linked location, app.py 376-398):
project with `total_fixed_cost = member_cost_pool = C_total`, one Record
per sharer. -/
def linkedProjectWrite (db : DB) (d : Date) (newMembers : List String)
    (loc : String) (C_total : Nat) (msg : String) : DB :=
  let pid := db.next_pid
  { db with
    projects := db.projects ++ [⟨pid, d, loc, C_total, C_total, msg⟩],
    project_members := db.project_members ++ newMembers.map (fun m => (pid, m)),
    records := db.records ++
      ⟨d, COMPANY_NAME, some pid, none,
        evenSplitCompany C_total newMembers.length, msg⟩ ::
      newMembers.map (fun m =>
        ⟨d, m, some pid, none, evenSplitShare C_total newMembers.length, msg⟩),
    next_pid := db.next_pid + 1 }

/-- The two-tier member share of 核心邏輯 B (app.py 413-424): half of the
cost (integer division) is the member pool, divided evenly. -/
def twoTierMemberShare (C n : Nat) : Nat := if 0 < n then C / 2 / n else 0

/-- The company share of 核心邏輯 B (app.py 413-426): the halving
remainder plus the member-pool division remainder on top of its half. -/
def twoTierCompanyShare (C n : Nat) : Nat :=
  C / 2 + C % 2 + (if 0 < n then C / 2 % n else 0)

/-- The rows written by 核心邏輯 B (standard split, app.py 429-447):
project with `total_fixed_cost = C`, `member_cost_pool = C // 2`, one
Record per sharer. -/
def standardProjectWrite (db : DB) (d : Date) (newMembers : List String)
    (loc : String) (C : Nat) (msg : String) : DB :=
  let pid := db.next_pid
  { db with
    projects := db.projects ++ [⟨pid, d, loc, C, C / 2, msg⟩],
    project_members := db.project_members ++ newMembers.map (fun m => (pid, m)),
    records := db.records ++
      ⟨d, COMPANY_NAME, some pid, none,
        twoTierCompanyShare C newMembers.length, msg⟩ ::
      newMembers.map (fun m =>
        ⟨d, m, some pid, none, twoTierMemberShare C newMembers.length, msg⟩),
    next_pid := db.next_pid + 1 }

/-- The rows written by 情況 A (project exists, app.py 485-507): add the
missing members (`ON CONFLICT DO NOTHING`), delete every Record of the
project and rewrite them from the *stored* total cost, one `N+1`-way even
share per head. -/
def mergeProjectWrite (db : DB) (d : Date) (p : ProjectRow)
    (allBusinessMembers membersToAdd : List String) (msg : String) : DB :=
  { db with
    project_members := db.project_members ++
      membersToAdd.dedup.map (fun m => (p.pid, m)),
    records :=
      db.records.filter (fun r => r.project_id != some p.pid) ++
      ⟨d, COMPANY_NAME, some p.pid, none,
        evenSplitCompany p.total_fixed_cost allBusinessMembers.length, msg⟩ ::
      allBusinessMembers.map (fun m =>
        ⟨d, m, some p.pid, none,
          evenSplitShare p.total_fixed_cost allBusinessMembers.length, msg⟩) }

/-- Core of `handle_record_expense` after parsing (app.py 322-513),
acting on the explicit store. -/
def recordExpenseCore (db : DB) (d : Date) (newMembers : List String)
    (loc : String) (manualCost : Option Nat) (isStd : Bool) (msg : String) : RecResult :=
  match lookupProject db d loc with
  | none =>
    -- 情況 B: no project yet (app.py 343-456)
    match getLocationDetails db loc d with
    | none => .errUnknownLocation
    | some (C_activity0, linkedItemName) =>
      let C_activity := manualCost.getD C_activity0
      -- should_link = linked_item_name and not is_standard_mode
      match (if isStd then none else linkedItemName) with
      | some itemName =>
        -- 核心邏輯 A: linked location (app.py 357-407)
        match lookupMonthlyItem db itemName with
        | none => .errNoMonthlyItem
        | some item =>
          if newMembers.Nodup && membersInsertable db newMembers then
            .createdLinked db.next_pid
              (linkedProjectWrite db d newMembers loc
                (C_activity + item.default_cost) msg)
          else .errDbConstraint
      | none =>
        -- 核心邏輯 B: standard location / standard mode (app.py 409-456)
        if newMembers.Nodup && membersInsertable db newMembers then
          .createdStandard db.next_pid
            (standardProjectWrite db d newMembers loc C_activity msg)
        else .errDbConstraint
  | some p =>
    -- 情況 A: project exists, merge members and rewrite records
    -- (app.py 458-513).  The manual cost and the standard flag are not
    -- consulted anywhere on this path.
    let currentMembers := projectMembersOf db p.pid
    let membersToAdd := newMembers.filter (fun m => !(currentMembers.contains m))
    if membersToAdd.isEmpty && !newMembers.isEmpty then .noNewMembers
    else
      -- sorted(list(set(current_members) | set(new_members)))
      let allBusinessMembers := sortStr ((currentMembers ++ newMembers).dedup)
      if membersInsertable db allBusinessMembers then
        .merged p.pid (mergeProjectWrite db d p allBusinessMembers membersToAdd msg)
      else .errDbConstraint

/-- `handle_record_expense` (app.py 316-526): parse, then run the core. -/
def handleRecordExpense (db : DB) (today : Date) (text : List Char) : RecResult :=
  match parseRecordCommand today text with
  | .error e => .errParse e
  | .ok r =>
    recordExpenseCore db r.full_date r.member_names r.location_name
      r.manual_cost r.is_standard_mode (String.mk text)

/- ## `handle_settle_monthly_cost` (app.py 661-797)

The text layer (app.py 663-676) splits the message and reads
`target_month = int(parts[2].replace('月',''))`, `cost_amount = int(parts[4])`,
`specified_members = parts[5:]`; the claims concern the computation that
follows, which we embed from those values (`cost_amount` as `Int`, exactly
Python's `int(...)`). -/

inductive SettleResult where
  | errNoItem                       -- "找不到月成本項目 ..."
  | errUnknownMember (name : String)  -- "指定成員 ... 不存在"
  | errEmptyRoster                  -- "分攤人名單不能為空"
  | errBadMonth                     -- date(year, month, 1) raises ValueError
  | errDbConstraint                 -- FK violation -> rollback
  | overCollected (deducted : Nat)  -- remainder < 0: report, write nothing
  | fullyAbsorbed (deducted : Nat)  -- remainder == 0: report, write nothing
  | settled (deducted : Nat) (finalCost : Nat) (sid : Nat) (db' : DB)
deriving DecidableEq, Repr

/-- `SELECT location_name FROM locations WHERE linked_monthly_item = %s`. -/
def linkedLocationNames (db : DB) (itemName : String) : List String :=
  (db.locations.filter (fun e => e.2.linked_monthly_item == some itemName)).map
    (fun e => e.1)

/-- The `COUNT(p.project_id)` query (app.py 719-726): projects at a linked
location whose `record_date` falls in the target month (of any year,
`date_part('month', ...)`) and with `member_cost_pool = total_fixed_cost`. -/
def linkedActivityDays (db : DB) (targetMonth : Nat) (itemName : String) : Nat :=
  (db.projects.filter (fun p =>
    (linkedLocationNames db itemName).contains p.location_name &&
    p.record_date.month == targetMonth &&
    p.member_cost_pool == p.total_fixed_cost)).length

/-- Year resolution for the settlement date (app.py 705-707). -/
def settlementYear (today : Date) (targetMonth : Nat) : Nat :=
  if targetMonth < today.month && today.month == 12 then today.year + 1
  else today.year

/-- The rows written by a successful settlement (app.py 749-774): 先刪後插
— drop any prior settlement for (month, item) and its records
(`ON DELETE CASCADE`), then insert the new settlement (storing the *final*
amount `f = final_cost_to_settle`) and one Record per sharer:
`f // (N+1)` each, remainder to the company. -/
def settleWrite (db : DB) (settlementDate : Date) (itemName : String)
    (finalMembers : List String) (f : Nat) (msg : String) : DB :=
  let cost_per_sharer := evenSplitShare f finalMembers.length
  let company_cost := evenSplitCompany f finalMembers.length
  let oldSid := (db.settlements.find? (fun s =>
    s.settlement_date == settlementDate && s.item_name == itemName)).map
      (fun s => s.sid)
  let keptSettlements := match oldSid with
    | none => db.settlements
    | some i => db.settlements.filter (fun s => s.sid != i)
  let keptRecords := match oldSid with
    | none => db.records
    | some i => db.records.filter (fun r => r.monthly_settlement_id != some i)
  let sid := db.next_sid
  { db with
    settlements := keptSettlements ++
      [⟨sid, itemName, settlementDate, f, finalMembers, msg⟩],
    records := keptRecords ++
      ⟨settlementDate, COMPANY_NAME, none, some sid, company_cost, msg⟩ ::
      finalMembers.map
        (fun m => ⟨settlementDate, m, none, some sid, cost_per_sharer, msg⟩),
    next_sid := db.next_sid + 1 }

/-- Roster resolution (app.py 688-700): the override roster if one was
typed (minus the company name), else the item's stored default roster;
empty names dropped. -/
def resolvedMembers (item : MonthlyItem) (specifiedMembers : List String) : List String :=
  (if specifiedMembers.isEmpty then item.default_members
   else specifiedMembers.filter (fun n => n != COMPANY_NAME)).filter
    (fun n => n != "")

/-- `total_fixed_cost_deducted` (app.py 715-729): the number of linked-mode
project days this month times the item's configured `default_cost`. -/
def totalFixedCostDeducted (db : DB) (targetMonth : Nat) (itemName : String)
    (default_cost : Nat) : Nat :=
  if !(linkedLocationNames db itemName).isEmpty then
    (if 0 < linkedActivityDays db targetMonth itemName then
      linkedActivityDays db targetMonth itemName * default_cost
    else 0)
  else 0

/-- Core of `handle_settle_monthly_cost` (app.py 681-787). -/
def settleMonthlyCore (db : DB) (today : Date) (targetMonth : Nat)
    (itemName : String) (costAmount : Int) (specifiedMembers : List String)
    (msg : String) : SettleResult :=
  match lookupMonthlyItem db itemName with
  | none => .errNoItem
  | some item =>
    match specifiedMembers.find? (fun n => !(db.members.contains n)) with
    | some bad => .errUnknownMember bad
    | none =>
      let finalMembers := resolvedMembers item specifiedMembers
      if finalMembers.isEmpty then .errEmptyRoster
      else if !(1 ≤ targetMonth && targetMonth ≤ 12) then .errBadMonth
      else
        let settlementDate : Date := ⟨settlementYear today targetMonth, targetMonth, 1⟩
        let deducted := totalFixedCostDeducted db targetMonth itemName item.default_cost
        let finalCostToSettle : Int := costAmount - (deducted : Int)
        if finalCostToSettle < 0 then .overCollected deducted
        else if finalCostToSettle == 0 then .fullyAbsorbed deducted
        else
          let f := finalCostToSettle.toNat
          if membersInsertable db finalMembers then
            .settled deducted f db.next_sid
              (settleWrite db settlementDate itemName finalMembers f msg)
          else .errDbConstraint

/-- The deduction reported by a settlement outcome (`none` on the paths
that fail before computing it). -/
def SettleResult.deductedOf : SettleResult → Option Nat
  | .overCollected dd => some dd
  | .fullyAbsorbed dd => some dd
  | .settled dd _ _ _ => some dd
  | _ => none

/- ## Spec-side models

The following definitions follow the specification's words, not the code;
each is used to compare a spec claim against the embedded code. -/

/-- Modelled from the spec: `countMatchingWeekdays(year, month, weekdayMask)`
— "returns the count of calendar days in that month whose weekday is in
`weekdayMask`".  No weekday mask exists anywhere in the code (the
`locations` table has only `weekday_cost`, `weekend_cost`,
`linked_monthly_item`). -/
def countMatchingWeekdays (y m : Nat) (weekdayMask : List Nat) : Nat :=
  ((List.range (daysInMonth y m)).filter (fun i =>
    weekdayMask.contains (pythonWeekday ⟨y, m, i + 1⟩))).length

/-- Modelled from the spec: `deducted = round(consumedUnits × unitPrice)`
with `unitPrice = invoiceAmount / totalCapacity` real-valued.  No such
computation exists in the code. -/
def specDeductedAmount (consumedUnits : Nat) (invoiceAmount : Int)
    (totalCapacity : Nat) : Int :=
  round ((consumedUnits * invoiceAmount : ℚ) / (totalCapacity : ℚ))

inductive ExprTok where
  | num (n : Nat)
  | op (c : Char)
deriving DecidableEq, Repr

/-- Modelled from the spec: lexer for "a trailing arithmetic expression
composed only of digits and `+ - * /`"; any other character invalidates
the token. -/
def lexExprAux : List Char → Option Nat → List ExprTok → Option (List ExprTok)
  | [], none, acc => some acc.reverse
  | [], some n, acc => some (ExprTok.num n :: acc).reverse
  | c :: cs, cur, acc =>
    if isDigitChar c then
      lexExprAux cs (some ((cur.getD 0) * 10 + digitVal c)) acc
    else if c == '+' || c == '-' || c == '*' || c == '/' then
      match cur with
      | some n => lexExprAux cs none (ExprTok.op c :: ExprTok.num n :: acc)
      | none => none
    else none

def lexExpr (cs : List Char) : Option (List ExprTok) := lexExprAux cs none []

/-- Modelled from the spec: evaluate a chain of `* /` (the
high-precedence level), left-associatively; integer division as Python's
`//`. -/
def evalTermChain : Int → List ExprTok → Option (Int × List ExprTok)
  | v, .op '*' :: .num n :: rest => evalTermChain (v * n) rest
  | v, .op '/' :: .num n :: rest =>
    if n == 0 then none else evalTermChain (Int.fdiv v n) rest
  | v, rest => some (v, rest)

/-- Modelled from the spec: evaluate the `+ -` level, left-associatively,
each operand a `* /` chain. -/
def evalAddChain : Nat → Int → List ExprTok → Option Int
  | _, v, [] => some v
  | fuel + 1, v, .op '+' :: .num n :: rest =>
    match evalTermChain (n : Int) rest with
    | some (t, r) => evalAddChain fuel (v + t) r
    | none => none
  | fuel + 1, v, .op '-' :: .num n :: rest =>
    match evalTermChain (n : Int) rest with
    | some (t, r) => evalAddChain fuel (v - t) r
    | none => none
  | _, _, _ => none

/-- Modelled from the spec: value of an arithmetic expression of digits
and `+ - * /` with standard operator precedence.  Absent from the code:
`parse_record_command` only matches `\s(\d+)$`. -/
def specEvalExpr (cs : List Char) : Option Int :=
  match lexExpr cs with
  | none => none
  | some toks =>
    match toks with
    | .num n :: rest =>
      match evalTermChain (n : Int) rest with
      | some (v, r) => evalAddChain toks.length v r
      | none => none
    | _ => none

/- ## Store well-formedness

Invariants the real database maintains (primary keys unique, id counters
ahead of every issued id); theorems about re-read state assume them. -/

def dbOk (db : DB) : Bool :=
  decide ((db.projects.map (fun p => p.pid)).Nodup) &&
  db.projects.all (fun p => p.pid < db.next_pid) &&
  db.records.all (fun r => r.project_id.all (fun i => i < db.next_pid)) &&
  decide ((db.settlements.map (fun s => s.sid)).Nodup) &&
  db.settlements.all (fun s => s.sid < db.next_sid) &&
  db.records.all (fun r => r.monthly_settlement_id.all (fun i => i < db.next_sid))

/-- Sum of `cost_paid` over the Records of one Project. -/
def projRecordsSum (db : DB) (pid : Nat) : Nat :=
  ((db.records.filter (fun r => r.project_id == some pid)).map
    (fun r => r.cost_paid)).sum

/-- Sum of `cost_paid` over the Records of one RecurringSettlement. -/
def settleRecordsSum (db : DB) (sid : Nat) : Nat :=
  ((db.records.filter (fun r => r.monthly_settlement_id == some sid)).map
    (fun r => r.cost_paid)).sum

/- ## Concrete example stores

Small stores used to instantiate the theorems below on concrete inputs.
`dbEx`: fresh configuration with one recurring-linked location (總站,
linked to monthly item 租, base cost 1000) and one standard dual-rate
location (小樹, weekday 800 / weekend 1200). -/

def dbEx : DB where
  members := [COMPANY_NAME, "甲", "乙", "丙"]
  locations := [("總站", ⟨600, 800, some "租"⟩), ("小樹", ⟨800, 1200, none⟩)]
  monthly_items := [("租", ⟨1000, ["甲", "乙", "丙"]⟩)]
  projects := []
  project_members := []
  settlements := []
  records := []
  next_pid := 0
  next_sid := 0

/-- `dbEx` after a standard-mode project of total 1000 with roster {甲}
already exists at (2025-09-12, 小樹). -/
def dbMerge : DB :=
  { dbEx with
    projects := [⟨0, ⟨2025, 9, 12⟩, "小樹", 1000, 500, "m"⟩],
    project_members := [(0, "甲")],
    records := [⟨⟨2025, 9, 12⟩, COMPANY_NAME, some 0, none, 500, "m"⟩,
                ⟨⟨2025, 9, 12⟩, "甲", some 0, none, 500, "m"⟩],
    next_pid := 1 }

/-- `dbEx` after three linked-mode projects at 總站 in November 2025
(each with `member_cost_pool = total_fixed_cost`, the linked-mode marker). -/
def dbSettleEx : DB :=
  { dbEx with
    projects := [⟨0, ⟨2025, 11, 3⟩, "總站", 1600, 1600, "a"⟩,
                 ⟨1, ⟨2025, 11, 4⟩, "總站", 1600, 1600, "b"⟩,
                 ⟨2, ⟨2025, 11, 5⟩, "總站", 1600, 1600, "c"⟩],
    project_members := [(0, "甲"), (1, "甲"), (2, "甲")],
    next_pid := 3 }

/- ## Inversion lemmas for `recordExpenseCore` -/

lemma createdLinked_inv {db : DB} {d : Date} {ms : List String} {loc : String}
    {mc : Option Nat} {std : Bool} {msg : String} {pid : Nat} {db' : DB}
    (h : recordExpenseCore db d ms loc mc std msg = .createdLinked pid db') :
    ∃ C0 iname item,
      lookupProject db d loc = none ∧
      getLocationDetails db loc d = some (C0, some iname) ∧
      std = false ∧
      lookupMonthlyItem db iname = some item ∧
      ms.Nodup ∧ membersInsertable db ms = true ∧
      pid = db.next_pid ∧
      db' = linkedProjectWrite db d ms loc (mc.getD C0 + item.default_cost) msg := by
  unfold recordExpenseCore at h
  split at h
  · split at h
    · exact absurd h (by simp)
    · rename_i C0 link hloc
      split at h
      · rename_i iname hif
        have hstd : std = false ∧ link = some iname := by
          cases std <;> simp_all
        split at h
        · exact absurd h (by simp)
        · rename_i item hitem
          split at h
          · rename_i hguard
            rw [Bool.and_eq_true, decide_eq_true_eq] at hguard
            cases h
            exact ⟨C0, iname, item, by assumption, hstd.2 ▸ hloc, hstd.1,
              hitem, hguard.1, hguard.2, rfl, rfl⟩
          · exact absurd h (by simp)
      · split at h <;> exact absurd h (by simp)
  · simp only [] at h
    split at h
    · exact absurd h (by simp)
    · split at h <;> exact absurd h (by simp)

lemma createdStandard_inv {db : DB} {d : Date} {ms : List String} {loc : String}
    {mc : Option Nat} {std : Bool} {msg : String} {pid : Nat} {db' : DB}
    (h : recordExpenseCore db d ms loc mc std msg = .createdStandard pid db') :
    ∃ C0 link,
      lookupProject db d loc = none ∧
      getLocationDetails db loc d = some (C0, link) ∧
      (if std then none else link) = none ∧
      ms.Nodup ∧ membersInsertable db ms = true ∧
      pid = db.next_pid ∧
      db' = standardProjectWrite db d ms loc (mc.getD C0) msg := by
  unfold recordExpenseCore at h
  split at h
  · split at h
    · exact absurd h (by simp)
    · rename_i C0 link hloc
      split at h
      · split at h
        · exact absurd h (by simp)
        · split at h <;> exact absurd h (by simp)
      · rename_i hif
        split at h
        · rename_i hguard
          rw [Bool.and_eq_true, decide_eq_true_eq] at hguard
          cases h
          exact ⟨C0, link, by assumption, hloc, hif, hguard.1, hguard.2, rfl, rfl⟩
        · exact absurd h (by simp)
  · simp only [] at h
    split at h
    · exact absurd h (by simp)
    · split at h <;> exact absurd h (by simp)

lemma merged_inv {db : DB} {d : Date} {ms : List String} {loc : String}
    {mc : Option Nat} {std : Bool} {msg : String} {pid : Nat} {db' : DB}
    (h : recordExpenseCore db d ms loc mc std msg = .merged pid db') :
    ∃ p, lookupProject db d loc = some p ∧ pid = p.pid ∧
      ((ms.filter (fun m => !((projectMembersOf db p.pid).contains m))).isEmpty
        && !ms.isEmpty) = false ∧
      membersInsertable db
        (sortStr ((projectMembersOf db p.pid ++ ms).dedup)) = true ∧
      db' = mergeProjectWrite db d p
        (sortStr ((projectMembersOf db p.pid ++ ms).dedup))
        (ms.filter (fun m => !((projectMembersOf db p.pid).contains m))) msg := by
  unfold recordExpenseCore at h
  split at h
  · split at h
    · exact absurd h (by simp)
    · split at h
      · split at h
        · exact absurd h (by simp)
        · split at h <;> exact absurd h (by simp)
      · split at h <;> exact absurd h (by simp)
  · rename_i p hfind
    simp only [] at h
    split at h
    · exact absurd h (by simp)
    · rename_i hne
      split at h
      · rename_i hguard
        cases h
        exact ⟨p, hfind, rfl, by simpa using hne, hguard, rfl⟩
      · exact absurd h (by simp)

lemma settled_inv {db : DB} {today : Date} {m : Nat} {itemName : String}
    {A : Int} {sms : List String} {msg : String} {dd f sid : Nat} {db' : DB}
    (h : settleMonthlyCore db today m itemName A sms msg = .settled dd f sid db') :
    ∃ it, lookupMonthlyItem db itemName = some it ∧
      (resolvedMembers it sms).isEmpty = false ∧
      dd = totalFixedCostDeducted db m itemName it.default_cost ∧
      0 < A - (dd : Int) ∧ f = (A - (dd : Int)).toNat ∧
      sid = db.next_sid ∧
      membersInsertable db (resolvedMembers it sms) = true ∧
      db' = settleWrite db ⟨settlementYear today m, m, 1⟩ itemName
        (resolvedMembers it sms) f msg := by
  unfold settleMonthlyCore at h
  split at h
  · exact absurd h (by simp)
  · rename_i item hitem
    split at h
    · exact absurd h (by simp)
    · simp only [] at h
      split at h
      · exact absurd h (by simp)
      · rename_i hne
        split at h
        · exact absurd h (by simp)
        · split at h
          · exact absurd h (by simp)
          · rename_i hneg
            split at h
            · exact absurd h (by simp)
            · rename_i hzero
              split at h
              · rename_i hguard
                cases h
                refine ⟨item, hitem, by simpa using hne, rfl, ?_, rfl, rfl,
                  hguard, rfl⟩
                rw [beq_iff_eq] at hzero
                omega
              · exact absurd h (by simp)

/- ## Arithmetic of the two remainder policies -/

/-- The `N+1`-way even split is exact: company share plus `n` member
shares reassemble the total. -/
lemma evenSplit_exact (total n : Nat) :
    evenSplitCompany total n + n * evenSplitShare total n = total := by
  unfold evenSplitCompany evenSplitShare
  have h := Nat.div_add_mod total (n + 1)
  have hr : total / (n + 1) + total % (n + 1) + n * (total / (n + 1)) =
      (n + 1) * (total / (n + 1)) + total % (n + 1) := by ring
  rw [hr, h]

/-- The two-tier split is exact for a non-empty roster. -/
lemma twoTier_exact (C n : Nat) (hn : 0 < n) :
    twoTierCompanyShare C n + n * twoTierMemberShare C n = C := by
  unfold twoTierCompanyShare twoTierMemberShare
  simp only [hn, if_true]
  have h1 := Nat.div_add_mod C 2
  have h2 := Nat.div_add_mod (C / 2) n
  have hr : C / 2 + C % 2 + C / 2 % n + n * (C / 2 / n) =
      C / 2 + C % 2 + (n * (C / 2 / n) + C / 2 % n) := by ring
  rw [hr, h2]
  omega

lemma sum_map_fixed {α : Type} (l : List α) (c : Nat) :
    (l.map (fun _ => c)).sum = l.length * c := by
  induction l with
  | nil => simp
  | cons a t ih => simp [ih, Nat.succ_mul, Nat.add_comm]

/- ## Consequences of store well-formedness -/

lemma dbOk_no_record_at_next_pid {db : DB} (hwf : dbOk db = true) :
    ∀ r ∈ db.records, (r.project_id == some db.next_pid) = false := by
  unfold dbOk at hwf
  simp only [Bool.and_eq_true, decide_eq_true_eq, List.all_eq_true] at hwf
  intro r hr
  have := hwf.1.1.1.2 r hr
  cases hpid : r.project_id with
  | none => rfl
  | some i =>
    rw [hpid] at this
    simp only [Option.all_some, decide_eq_true_eq] at this
    simp only [beq_eq_false_iff_ne, ne_eq, Option.some.injEq]
    omega

lemma dbOk_no_record_at_next_sid {db : DB} (hwf : dbOk db = true) :
    ∀ r ∈ db.records, (r.monthly_settlement_id == some db.next_sid) = false := by
  unfold dbOk at hwf
  simp only [Bool.and_eq_true, decide_eq_true_eq, List.all_eq_true] at hwf
  intro r hr
  have := hwf.2 r hr
  cases hsid : r.monthly_settlement_id with
  | none => rfl
  | some i =>
    rw [hsid] at this
    simp only [Option.all_some, decide_eq_true_eq] at this
    simp only [beq_eq_false_iff_ne, ne_eq, Option.some.injEq]
    omega

lemma dbOk_project_pid_ne_next {db : DB} (hwf : dbOk db = true) :
    ∀ p ∈ db.projects, p.pid ≠ db.next_pid := by
  unfold dbOk at hwf
  simp only [Bool.and_eq_true, decide_eq_true_eq, List.all_eq_true] at hwf
  intro p hp
  have := hwf.1.1.1.1.2 p hp
  omega

lemma dbOk_projects_pid_nodup {db : DB} (hwf : dbOk db = true) :
    (db.projects.map (fun p => p.pid)).Nodup := by
  unfold dbOk at hwf
  simp only [Bool.and_eq_true, decide_eq_true_eq, List.all_eq_true] at hwf
  exact hwf.1.1.1.1.1

/- ## Record sums of the three write paths -/

lemma linkedWrite_projSum (db : DB) (d : Date) (ms : List String) (loc : String)
    (Ct : Nat) (msg : String)
    (hcl : ∀ r ∈ db.records, (r.project_id == some db.next_pid) = false) :
    projRecordsSum (linkedProjectWrite db d ms loc Ct msg) db.next_pid = Ct := by
  unfold projRecordsSum linkedProjectWrite
  simp only [List.filter_append, List.filter_cons, List.filter_map, List.map_append,
    List.sum_append, Function.comp_def, beq_self_eq_true, if_true, List.map_cons,
    List.sum_cons, List.map_map]
  rw [List.filter_eq_nil_iff.mpr (by intro a ha; simp [hcl a ha])]
  simp only [List.map_nil, List.sum_nil, Nat.zero_add, List.filter_true]
  rw [sum_map_fixed]
  exact evenSplit_exact Ct ms.length

lemma standardWrite_projSum (db : DB) (d : Date) (ms : List String) (loc : String)
    (C : Nat) (msg : String) (hms : ms ≠ [])
    (hcl : ∀ r ∈ db.records, (r.project_id == some db.next_pid) = false) :
    projRecordsSum (standardProjectWrite db d ms loc C msg) db.next_pid = C := by
  unfold projRecordsSum standardProjectWrite
  simp only [List.filter_append, List.filter_cons, List.filter_map, List.map_append,
    List.sum_append, Function.comp_def, beq_self_eq_true, if_true, List.map_cons,
    List.sum_cons, List.map_map]
  rw [List.filter_eq_nil_iff.mpr (by intro a ha; simp [hcl a ha])]
  simp only [List.map_nil, List.sum_nil, Nat.zero_add, List.filter_true]
  rw [sum_map_fixed]
  exact twoTier_exact C ms.length (List.length_pos.mpr hms)

lemma mergeWrite_projSum (db : DB) (d : Date) (p : ProjectRow)
    (allBiz toAdd : List String) (msg : String) :
    projRecordsSum (mergeProjectWrite db d p allBiz toAdd msg) p.pid =
      p.total_fixed_cost := by
  unfold projRecordsSum mergeProjectWrite
  simp only [List.filter_append, List.filter_cons, List.filter_map, List.map_append,
    List.sum_append, Function.comp_def, beq_self_eq_true, if_true, List.map_cons,
    List.sum_cons, List.map_map]
  rw [List.filter_eq_nil_iff.mpr (by intro a ha; simp_all [List.mem_filter])]
  simp only [List.map_nil, List.sum_nil, Nat.zero_add, List.filter_true]
  rw [sum_map_fixed]
  exact evenSplit_exact p.total_fixed_cost allBiz.length

/- ## C1 -/

/-- C1: for every Project written or rewritten by the record-expense
operation — the linked create path, the standard create path, or the merge
path for an already-existing Project — with any member roster of size ≥ 1,
the `cost_paid` values of the Records belonging to that Project sum
exactly to the Project's stored `total_fixed_cost`. -/
theorem c1_project_records_sum_eq_total
    (db : DB) (d : Date) (ms : List String) (loc : String) (mc : Option Nat)
    (std : Bool) (msg : String) (pid : Nat) (db' : DB)
    (hwf : dbOk db = true) (hms : ms ≠ [])
    (h : recordExpenseCore db d ms loc mc std msg = .createdLinked pid db' ∨
         recordExpenseCore db d ms loc mc std msg = .createdStandard pid db' ∨
         recordExpenseCore db d ms loc mc std msg = .merged pid db') :
    ∀ p ∈ db'.projects, p.pid = pid →
      projRecordsSum db' pid = p.total_fixed_cost := by
  rcases h with h | h | h
  · obtain ⟨C0, iname, item, hproj, hloc, hstd, hitem, hnodup, hins, hpid, hdb⟩ :=
      createdLinked_inv h
    subst hdb; subst hpid
    intro p hp hpidp
    rw [linkedWrite_projSum db d ms loc _ msg (dbOk_no_record_at_next_pid hwf)]
    have hp' : p ∈ db.projects ++
        [⟨db.next_pid, d, loc, mc.getD C0 + item.default_cost,
          mc.getD C0 + item.default_cost, msg⟩] := hp
    rcases List.mem_append.mp hp' with hold | hnew
    · exact absurd hpidp (dbOk_project_pid_ne_next hwf p hold)
    · rcases List.mem_singleton.mp hnew with rfl
      rfl
  · obtain ⟨C0, link, hproj, hloc, hstd, hnodup, hins, hpid, hdb⟩ :=
      createdStandard_inv h
    subst hdb; subst hpid
    intro p hp hpidp
    rw [standardWrite_projSum db d ms loc _ msg hms
      (dbOk_no_record_at_next_pid hwf)]
    have hp' : p ∈ db.projects ++
        [⟨db.next_pid, d, loc, mc.getD C0, mc.getD C0 / 2, msg⟩] := hp
    rcases List.mem_append.mp hp' with hold | hnew
    · exact absurd hpidp (dbOk_project_pid_ne_next hwf p hold)
    · rcases List.mem_singleton.mp hnew with rfl
      rfl
  · obtain ⟨p0, hfind, hpid, hne, hins, hdb⟩ := merged_inv h
    subst hdb; subst hpid
    intro p hp hpidp
    have hp0 : p0 ∈ db.projects := List.mem_of_find?_eq_some hfind
    have hp' : p ∈ db.projects := hp
    have : p = p0 :=
      List.inj_on_of_nodup_map (dbOk_projects_pid_nodup hwf) hp' hp0 hpidp
    subst this
    exact mergeWrite_projSum db d p _ _ msg

lemma settleWrite_sum (db : DB) (sd : Date) (itemName : String)
    (fm : List String) (f : Nat) (msg : String)
    (hcl : ∀ r ∈ db.records, (r.monthly_settlement_id == some db.next_sid) = false) :
    settleRecordsSum (settleWrite db sd itemName fm f msg) db.next_sid = f := by
  unfold settleRecordsSum settleWrite
  cases hfind : db.settlements.find? (fun s =>
      s.settlement_date == sd && s.item_name == itemName) with
  | none =>
    simp only [hfind, Option.map_none', List.filter_append, List.filter_cons,
      List.filter_map, List.map_append, List.sum_append, Function.comp_def,
      beq_self_eq_true, if_true, List.map_cons, List.sum_cons, List.map_map]
    rw [List.filter_eq_nil_iff.mpr (by intro a ha; simp [hcl a ha])]
    simp only [List.map_nil, List.sum_nil, Nat.zero_add, List.filter_true]
    rw [sum_map_fixed]
    exact evenSplit_exact f fm.length
  | some s0 =>
    simp only [hfind, Option.map_some', List.filter_append, List.filter_cons,
      List.filter_map, List.map_append, List.sum_append, Function.comp_def,
      beq_self_eq_true, if_true, List.map_cons, List.sum_cons, List.map_map]
    rw [List.filter_eq_nil_iff.mpr
      (by intro a ha; rw [List.mem_filter] at ha; simp [hcl a ha.1])]
    simp only [List.map_nil, List.sum_nil, Nat.zero_add, List.filter_true]
    rw [sum_map_fixed]
    exact evenSplit_exact f fm.length

/- ## C6 -/

/-- C6: whenever a RecurringSettlement is actually written (the computed
remainder is strictly positive), the `cost_paid` values of its Records sum
to the remainder `invoice − deducted` — not to the full invoice amount —
and the settlement row itself stores that remainder. -/
theorem c6_settlement_records_sum_eq_remainder
    (db : DB) (today : Date) (m : Nat) (itemName : String) (A : Int)
    (sms : List String) (msg : String) (dd f sid : Nat) (db' : DB)
    (hwf : dbOk db = true)
    (h : settleMonthlyCore db today m itemName A sms msg = .settled dd f sid db') :
    0 < f ∧ (f : Int) = A - (dd : Int) ∧
    settleRecordsSum db' sid = f ∧
    ∃ s ∈ db'.settlements, s.sid = sid ∧ s.cost_amount = f := by
  obtain ⟨it, hitem, hne, hdd, hpos, hf, hsid, hins, hdb⟩ := settled_inv h
  subst hdb; subst hsid
  have hfInt : (f : Int) = A - (dd : Int) := by
    rw [hf]; exact Int.toNat_of_nonneg (le_of_lt hpos)
  refine ⟨by omega, hfInt, ?_, ?_⟩
  · exact settleWrite_sum db _ itemName _ f msg (dbOk_no_record_at_next_sid hwf)
  · refine ⟨⟨db.next_sid, itemName, ⟨settlementYear today m, m, 1⟩, f,
      resolvedMembers it sms, msg⟩, ?_, rfl, rfl⟩
    unfold settleWrite
    exact List.mem_append_right _ (List.mem_singleton_self _)

/- ## C5 -/

/-- C5: a first record-expense in standard mode with effective unit cost
`C` and roster of `N ≥ 1` members writes, for each member, a Record of
`(C / 2) / N` (integer divisions), and for the company a Record of
`(C − C / 2) + ((C / 2) % N)`; the project stores total `C` and member
pool `C / 2`.  (At `C = 1000`, `N = 3` this is pool 500, members 166 each,
company 502 — see the witness.) -/
theorem c5_standard_two_tier_split
    (db : DB) (d : Date) (ms : List String) (loc : String) (C : Nat)
    (std : Bool) (msg : String) (pid : Nat) (db' : DB) (hms : ms ≠ [])
    (h : recordExpenseCore db d ms loc (some C) std msg = .createdStandard pid db') :
    pid = db.next_pid ∧
    db'.projects = db.projects ++ [⟨pid, d, loc, C, C / 2, msg⟩] ∧
    db'.records = db.records ++
      ⟨d, COMPANY_NAME, some pid, none, C - C / 2 + C / 2 % ms.length, msg⟩ ::
      ms.map (fun m => ⟨d, m, some pid, none, C / 2 / ms.length, msg⟩) := by
  obtain ⟨C0, link, hproj, hloc, hstd, hnodup, hins, hpid, hdb⟩ :=
    createdStandard_inv h
  subst hdb; subst hpid
  have hN : 0 < ms.length := List.length_pos.mpr hms
  have hcomp : twoTierCompanyShare C ms.length =
      C - C / 2 + C / 2 % ms.length := by
    unfold twoTierCompanyShare
    simp only [hN, if_true]
    omega
  have hmem : twoTierMemberShare C ms.length = C / 2 / ms.length := by
    unfold twoTierMemberShare
    simp only [hN, if_true]
  refine ⟨rfl, ?_, ?_⟩
  · rfl
  · show (standardProjectWrite db d ms loc ((some C).getD C0) msg).records = _
    unfold standardProjectWrite
    simp only [Option.getD_some, hcomp, hmem]

/-- Witness for C5 at the spec's own example: unit cost 1000, three
members, standard location 小樹 — member pool 500, each member 166, the
company 502. -/
theorem c5_standard_two_tier_split_witness :
    (standardProjectWrite dbEx ⟨2025, 9, 12⟩ ["甲", "乙", "丙"] "小樹"
        1000 "w").records =
      dbEx.records ++
        ⟨⟨2025, 9, 12⟩, COMPANY_NAME, some 0, none, 502, "w"⟩ ::
        (["甲", "乙", "丙"] : List String).map
          (fun m => ⟨⟨2025, 9, 12⟩, m, some 0, none, 166, "w"⟩) ∧
    1000 / 2 = 500 ∧ (1000 : Nat) - 500 + 500 % 3 = 502 ∧
    (500 : Nat) / 3 = 166 := by
  have h := c5_standard_two_tier_split dbEx ⟨2025, 9, 12⟩ ["甲", "乙", "丙"]
    "小樹" 1000 false "w" 0
    (standardProjectWrite dbEx ⟨2025, 9, 12⟩ ["甲", "乙", "丙"] "小樹" 1000 "w")
    (by decide) (by decide)
  refine ⟨?_, by decide, by decide, by decide⟩
  rw [h.2.2]
  decide

/- ## C9 -/

/-- C9: without a manual cost override, the effective event cost is the
Location's `weekend_cost` when the date's Python weekday is ≥ 5 (Saturday
or Sunday) and its `weekday_cost` otherwise — on the standard create path
it becomes the project total, on the linked create path it is added to the
item's fixed cost.  Since the two configured rates may differ, the same
location yields different per-event costs on different dates (see the
witness). -/
theorem c9_effective_cost_by_weekday
    (db : DB) (d : Date) (ms : List String) (loc : String) (std : Bool)
    (msg : String) (pid : Nat) (db' : DB) (cfg : LocationCfg)
    (hcfg : lookupLocation db loc = some cfg) :
    (recordExpenseCore db d ms loc none std msg = .createdStandard pid db' →
      db'.projects = db.projects ++
        [⟨pid, d, loc,
          (if 5 ≤ pythonWeekday d then cfg.weekend_cost else cfg.weekday_cost),
          (if 5 ≤ pythonWeekday d then cfg.weekend_cost else cfg.weekday_cost) / 2,
          msg⟩]) ∧
    (∀ iname item, cfg.linked_monthly_item = some iname →
      lookupMonthlyItem db iname = some item →
      recordExpenseCore db d ms loc none std msg = .createdLinked pid db' →
      db'.projects = db.projects ++
        [⟨pid, d, loc,
          (if 5 ≤ pythonWeekday d then cfg.weekend_cost else cfg.weekday_cost) +
            item.default_cost,
          (if 5 ≤ pythonWeekday d then cfg.weekend_cost else cfg.weekday_cost) +
            item.default_cost,
          msg⟩]) := by
  constructor
  · intro h
    obtain ⟨C0, link, hproj, hloc, hstd, hnodup, hins, hpid, hdb⟩ :=
      createdStandard_inv h
    unfold getLocationDetails at hloc
    rw [hcfg] at hloc
    simp only [Option.map_some', Option.some.injEq, Prod.mk.injEq] at hloc
    subst hdb; subst hpid
    rw [← hloc.1]
    rfl
  · intro iname item hlink hitem h
    obtain ⟨C0, iname', item', hproj, hloc, hstd, hitem', hnodup, hins, hpid, hdb⟩ :=
      createdLinked_inv h
    unfold getLocationDetails at hloc
    rw [hcfg] at hloc
    simp only [Option.map_some', Option.some.injEq, Prod.mk.injEq] at hloc
    have hin : iname' = iname := by
      have := hloc.2
      rw [hlink] at this
      exact (Option.some.injEq _ _ ▸ this).symm
    subst hin
    rw [hitem] at hitem'
    have hit : item' = item := by
      have := hitem'
      simp only [Option.some.injEq] at this
      exact this.symm
    subst hit
    subst hdb; subst hpid
    rw [← hloc.1]
    rfl

/-- Witness for C9: at 小樹 (weekday 800 / weekend 1200), 2025-09-12 is a
Friday and yields an 800 project while 2025-09-13 is a Saturday and yields
a 1200 project — the same location, different per-event costs. -/
theorem c9_effective_cost_by_weekday_witness :
    (standardProjectWrite dbEx ⟨2025, 9, 12⟩ ["甲"] "小樹" 800 "w").projects =
      dbEx.projects ++ [⟨0, ⟨2025, 9, 12⟩, "小樹", 800, 400, "w"⟩] ∧
    (standardProjectWrite dbEx ⟨2025, 9, 13⟩ ["甲"] "小樹" 1200 "w").projects =
      dbEx.projects ++ [⟨0, ⟨2025, 9, 13⟩, "小樹", 1200, 600, "w"⟩] ∧
    (800 : Nat) ≠ 1200 := by
  refine ⟨?_, ?_, by decide⟩
  · have h := (c9_effective_cost_by_weekday dbEx ⟨2025, 9, 12⟩ ["甲"] "小樹"
      false "w" 0
      (standardProjectWrite dbEx ⟨2025, 9, 12⟩ ["甲"] "小樹" 800 "w")
      ⟨800, 1200, none⟩ (by decide)).1 (by decide)
    rw [h]
    decide
  · have h := (c9_effective_cost_by_weekday dbEx ⟨2025, 9, 13⟩ ["甲"] "小樹"
      false "w" 0
      (standardProjectWrite dbEx ⟨2025, 9, 13⟩ ["甲"] "小樹" 1200 "w")
      ⟨800, 1200, none⟩ (by decide)).1 (by decide)
    rw [h]
    decide

/-- Witness for C1 on the merge path: re-issuing for (2025-09-12, 小樹)
with the extra member 乙 rewrites the Records to 334 + 333 + 333 = 1000,
the stored total. -/
theorem c1_project_records_sum_eq_total_witness :
    dbOk dbMerge = true ∧
    recordExpenseCore dbMerge ⟨2025, 9, 12⟩ ["乙"] "小樹" none false "w" =
      .merged 0 (mergeProjectWrite dbMerge ⟨2025, 9, 12⟩
        ⟨0, ⟨2025, 9, 12⟩, "小樹", 1000, 500, "m"⟩ ["乙", "甲"] ["乙"] "w") ∧
    projRecordsSum (mergeProjectWrite dbMerge ⟨2025, 9, 12⟩
        ⟨0, ⟨2025, 9, 12⟩, "小樹", 1000, 500, "m"⟩ ["乙", "甲"] ["乙"] "w") 0
      = 1000 := by
  refine ⟨by decide, by decide, ?_⟩
  have h := c1_project_records_sum_eq_total dbMerge ⟨2025, 9, 12⟩ ["乙"] "小樹"
    none false "w" 0
    (mergeProjectWrite dbMerge ⟨2025, 9, 12⟩
      ⟨0, ⟨2025, 9, 12⟩, "小樹", 1000, 500, "m"⟩ ["乙", "甲"] ["乙"] "w")
    (by decide) (by decide) (Or.inr (Or.inr (by decide)))
  exact h ⟨0, ⟨2025, 9, 12⟩, "小樹", 1000, 500, "m"⟩ (by decide) rfl

lemma mem_linkedLocationNames_of_lookup {db : DB} {loc : String}
    {cfg : LocationCfg} {iname : String}
    (hcfg : lookupLocation db loc = some cfg)
    (hlink : cfg.linked_monthly_item = some iname) :
    loc ∈ linkedLocationNames db iname := by
  unfold lookupLocation at hcfg
  rcases hfind : db.locations.find? (fun e => e.1 == loc) with _ | e
  · rw [hfind] at hcfg; simp at hcfg
  · rw [hfind] at hcfg
    simp only [Option.map_some', Option.some.injEq] at hcfg
    have hmem : e ∈ db.locations := List.mem_of_find?_eq_some hfind
    have hname := List.find?_some hfind
    rw [beq_iff_eq] at hname
    unfold linkedLocationNames
    refine List.mem_map.mpr ⟨e, List.mem_filter.mpr ⟨hmem, ?_⟩, hname⟩
    rw [hcfg, hlink]
    simp

/-- Appending one project row that is at a linked location of `iname`,
dated in month `m`, and has the linked-mode marker
`member_cost_pool = total_fixed_cost` raises the consumed-capacity count
by exactly one. -/
lemma linkedActivityDays_snoc (db db' : DB) (row : ProjectRow) (m : Nat)
    (iname : String)
    (hlocs : db'.locations = db.locations)
    (hproj : db'.projects = db.projects ++ [row])
    (hconts : (linkedLocationNames db iname).contains row.location_name = true)
    (hm : row.record_date.month = m)
    (hpool : row.member_cost_pool = row.total_fixed_cost) :
    linkedActivityDays db' m iname = linkedActivityDays db m iname + 1 := by
  unfold linkedActivityDays
  have hnames : linkedLocationNames db' iname = linkedLocationNames db iname := by
    unfold linkedLocationNames
    rw [hlocs]
  rw [hnames, hproj, List.filter_append, List.length_append]
  have : (([row]).filter (fun p =>
      (linkedLocationNames db iname).contains p.location_name &&
      p.record_date.month == m &&
      p.member_cost_pool == p.total_fixed_cost)).length = 1 := by
    have hmem := List.mem_of_elem_eq_true hconts
    simp [List.filter_cons, hmem, hm, hpool]
  rw [this]

/- ## C3 -/

/-- Counterexample to C3 as stated: at the linked location 總站 (event
cost 600 on a weekday, item 租 with fixed cost 1000) with one member, the
code writes each sharer 800 = (600 + 1000) / 2 — not the two-tier split of
the event's own cost, which would give the member (600 / 2) / 1 = 300. -/
theorem c3_counterexample :
    recordExpenseCore dbEx ⟨2025, 9, 12⟩ ["甲"] "總站" none false "w" =
      .createdLinked 0 (linkedProjectWrite dbEx ⟨2025, 9, 12⟩ ["甲"] "總站"
        1600 "w") ∧
    (linkedProjectWrite dbEx ⟨2025, 9, 12⟩ ["甲"] "總站" 1600 "w").records.map
      (fun r => r.cost_paid) = [800, 800] ∧
    twoTierMemberShare 600 1 = 300 ∧ (800 : Nat) ≠ 300 := by
  refine ⟨by decide, by decide, by decide, by decide⟩

/-- C3 (amended): a first record-expense at a recurring-linked location
with the force-standard flag false adds the item's `default_cost` to the
event cost and splits the sum in a *single* tier evenly over the `N`
members plus the company (division remainder to the company); the project
is written with `member_cost_pool = total_fixed_cost`, and it thereby
counts as exactly one more unit of capacity consumed
(`linkedActivityDays`) against the recurring item for the event's month. -/
theorem c3_linked_mode_split_and_capacity
    (db : DB) (d : Date) (ms : List String) (loc : String) (mc : Option Nat)
    (std : Bool) (msg : String) (pid : Nat) (db' : DB) (cfg : LocationCfg)
    (iname : String)
    (hcfg : lookupLocation db loc = some cfg)
    (hlink : cfg.linked_monthly_item = some iname)
    (h : recordExpenseCore db d ms loc mc std msg = .createdLinked pid db') :
    std = false ∧
    ∃ item, lookupMonthlyItem db iname = some item ∧
      (let Ct := mc.getD (if 5 ≤ pythonWeekday d then cfg.weekend_cost
          else cfg.weekday_cost) + item.default_cost
       db'.projects = db.projects ++ [⟨pid, d, loc, Ct, Ct, msg⟩] ∧
       db'.records = db.records ++
         ⟨d, COMPANY_NAME, some pid, none, evenSplitCompany Ct ms.length, msg⟩ ::
         ms.map (fun m =>
           ⟨d, m, some pid, none, evenSplitShare Ct ms.length, msg⟩)) ∧
      linkedActivityDays db' d.month iname =
        linkedActivityDays db d.month iname + 1 := by
  obtain ⟨C0, iname', item, hproj, hloc, hstd, hitem, hnodup, hins, hpid, hdb⟩ :=
    createdLinked_inv h
  unfold getLocationDetails at hloc
  rw [hcfg] at hloc
  simp only [Option.map_some', Option.some.injEq, Prod.mk.injEq] at hloc
  have hin : iname' = iname := by
    have := hloc.2
    rw [hlink] at this
    exact (Option.some.injEq _ _ ▸ this).symm
  subst hin
  refine ⟨hstd, item, hitem, ?_, ?_⟩
  · subst hdb; subst hpid
    rw [← hloc.1]
    exact ⟨rfl, rfl⟩
  · subst hdb; subst hpid
    exact linkedActivityDays_snoc db _
      ⟨db.next_pid, d, loc, mc.getD C0 + item.default_cost,
        mc.getD C0 + item.default_cost, msg⟩ d.month _ rfl rfl
      (List.elem_eq_true_of_mem (mem_linkedLocationNames_of_lookup hcfg hlink))
      rfl rfl

/-- Witness for C3 (amended): 總站 on Friday 2025-09-12 (600) linked to 租
(1000) with one member — total 1600 split 800/800, and the September
consumed-unit count rises from 0 to 1. -/
theorem c3_linked_mode_split_and_capacity_witness :
    (linkedProjectWrite dbEx ⟨2025, 9, 12⟩ ["甲"] "總站" 1600 "w").projects =
      dbEx.projects ++ [⟨0, ⟨2025, 9, 12⟩, "總站", 1600, 1600, "w"⟩] ∧
    linkedActivityDays
      (linkedProjectWrite dbEx ⟨2025, 9, 12⟩ ["甲"] "總站" 1600 "w") 9 "租" =
      linkedActivityDays dbEx 9 "租" + 1 := by
  have h := c3_linked_mode_split_and_capacity dbEx ⟨2025, 9, 12⟩ ["甲"] "總站"
    none false "w" 0
    (linkedProjectWrite dbEx ⟨2025, 9, 12⟩ ["甲"] "總站" 1600 "w")
    ⟨600, 800, some "租"⟩ "租" (by decide) (by decide) (by decide)
  obtain ⟨-, item, hitem, hsplit, hdays⟩ := h
  have hit : item = ⟨1000, ["甲", "乙", "丙"]⟩ := by
    rw [show lookupMonthlyItem dbEx "租" = some ⟨1000, ["甲", "乙", "丙"]⟩
      from by decide] at hitem
    simpa using hitem.symm
  subst hit
  exact ⟨hsplit.1, hdays⟩

/- ## C4 -/

/-- Counterexample to C4 as stated: re-issuing for the existing project
(2025-09-12, 小樹, stored total 1000) with the extra member 乙 *and* the
cost override 9999 leaves the stored total cost at 1000 — the override is
ignored, not applied before regeneration as the claim says. -/
theorem c4_counterexample :
    recordExpenseCore dbMerge ⟨2025, 9, 12⟩ ["乙"] "小樹" (some 9999) false "w" =
      .merged 0 (mergeProjectWrite dbMerge ⟨2025, 9, 12⟩
        ⟨0, ⟨2025, 9, 12⟩, "小樹", 1000, 500, "m"⟩ ["乙", "甲"] ["乙"] "w") ∧
    (mergeProjectWrite dbMerge ⟨2025, 9, 12⟩
        ⟨0, ⟨2025, 9, 12⟩, "小樹", 1000, 500, "m"⟩
        ["乙", "甲"] ["乙"] "w").projects.map (fun p => p.total_fixed_cost) =
      [1000] ∧
    (1000 : Nat) ≠ 9999 := by
  refine ⟨by decide, by decide, by decide⟩

/-- C4 (amended): re-issuing record-expense for an existing (date,
location) *never* changes the Project's stored total cost — a supplied
cost override or force-standard flag is ignored — and the merge path
leaves the projects, locations, monthly items, members, settlements and
id counters untouched; only `project_members` grows and the Records of
this one project are rewritten (Records of every other Project are kept
verbatim). -/
theorem c4_merge_never_updates_total
    (db : DB) (d : Date) (ms : List String) (loc : String) (mc : Option Nat)
    (std : Bool) (msg : String) (pid : Nat) (db' : DB)
    (h : recordExpenseCore db d ms loc mc std msg = .merged pid db') :
    db'.projects = db.projects ∧
    db'.locations = db.locations ∧
    db'.monthly_items = db.monthly_items ∧
    db'.members = db.members ∧
    db'.settlements = db.settlements ∧
    db'.next_pid = db.next_pid ∧
    db'.next_sid = db.next_sid ∧
    db'.records.filter (fun r => r.project_id != some pid) =
      db.records.filter (fun r => r.project_id != some pid) := by
  obtain ⟨p, hfind, hpid, hne, hins, hdb⟩ := merged_inv h
  subst hdb; subst hpid
  refine ⟨rfl, rfl, rfl, rfl, rfl, rfl, rfl, ?_⟩
  show ((db.records.filter (fun r => r.project_id != some p.pid)) ++ _).filter
      (fun r => r.project_id != some p.pid) = _
  rw [List.filter_append]
  have h1 : (db.records.filter (fun r => r.project_id != some p.pid)).filter
      (fun r => r.project_id != some p.pid) =
      db.records.filter (fun r => r.project_id != some p.pid) := by
    rw [List.filter_filter]
    simp
  have h2 : ((⟨d, COMPANY_NAME, some p.pid, none,
      evenSplitCompany p.total_fixed_cost
        (sortStr ((projectMembersOf db p.pid ++ ms).dedup)).length, msg⟩ ::
      (sortStr ((projectMembersOf db p.pid ++ ms).dedup)).map (fun m =>
        (⟨d, m, some p.pid, none,
          evenSplitShare p.total_fixed_cost
            (sortStr ((projectMembersOf db p.pid ++ ms).dedup)).length,
          msg⟩ : RecordRow))).filter
      (fun r => r.project_id != some p.pid)) = [] := by
    rw [List.filter_eq_nil_iff]
    intro a ha
    rcases List.mem_cons.mp ha with rfl | hmem
    · simp
    · obtain ⟨x, -, rfl⟩ := List.mem_map.mp hmem
      simp
  rw [h1, h2, List.append_nil]

/-- Witness for C4 (amended) at the same input as the counterexample:
override 9999 supplied, yet the projects table after the merge is exactly
the one before. -/
theorem c4_merge_never_updates_total_witness :
    (mergeProjectWrite dbMerge ⟨2025, 9, 12⟩
      ⟨0, ⟨2025, 9, 12⟩, "小樹", 1000, 500, "m"⟩
      ["乙", "甲"] ["乙"] "w").projects = dbMerge.projects := by
  exact (c4_merge_never_updates_total dbMerge ⟨2025, 9, 12⟩ ["乙"] "小樹"
    (some 9999) false "w" 0
    (mergeProjectWrite dbMerge ⟨2025, 9, 12⟩
      ⟨0, ⟨2025, 9, 12⟩, "小樹", 1000, 500, "m"⟩ ["乙", "甲"] ["乙"] "w")
    (by decide)).1

/- ## C8 -/

/-- C8: when record-expense targets an already-existing Project, the
outcome is independent of any supplied cost override and of the standard
flag (both are ignored), and the regenerated Records divide the *stored*
total cost in a single tier evenly among the `N` merged business members
plus the company — `total // (N+1)` each, division remainder to the
company — regardless of how the Project was originally created. -/
theorem c8_merge_even_split_ignores_override
    (db : DB) (d : Date) (ms : List String) (loc : String) (mc : Option Nat)
    (std : Bool) (msg : String) (p : ProjectRow)
    (hfind : lookupProject db d loc = some p) :
    recordExpenseCore db d ms loc mc std msg =
      recordExpenseCore db d ms loc none false msg ∧
    (∀ pid db', recordExpenseCore db d ms loc mc std msg = .merged pid db' →
      pid = p.pid ∧
      db'.records =
        db.records.filter (fun r => r.project_id != some p.pid) ++
        ⟨d, COMPANY_NAME, some p.pid, none,
          evenSplitCompany p.total_fixed_cost
            (sortStr ((projectMembersOf db p.pid ++ ms).dedup)).length, msg⟩ ::
        (sortStr ((projectMembersOf db p.pid ++ ms).dedup)).map (fun m =>
          ⟨d, m, some p.pid, none,
            evenSplitShare p.total_fixed_cost
              (sortStr ((projectMembersOf db p.pid ++ ms).dedup)).length,
            msg⟩)) := by
  constructor
  · unfold recordExpenseCore
    rw [hfind]
  · intro pid db' h
    obtain ⟨p', hfind', hpid, hne, hins, hdb⟩ := merged_inv h
    rw [hfind] at hfind'
    have hp : p' = p := by simpa using hfind'.symm
    subst hp; subst hdb; subst hpid
    exact ⟨rfl, rfl⟩

/-- Witness for C8: with override 7777 and the standard flag set, the
re-issue on (2025-09-12, 小樹) behaves identically to the plain re-issue,
and the rewritten Records are 334/333/333 from the stored total 1000. -/
theorem c8_merge_even_split_ignores_override_witness :
    recordExpenseCore dbMerge ⟨2025, 9, 12⟩ ["乙"] "小樹" (some 7777) true "w" =
      recordExpenseCore dbMerge ⟨2025, 9, 12⟩ ["乙"] "小樹" none false "w" ∧
    (mergeProjectWrite dbMerge ⟨2025, 9, 12⟩
        ⟨0, ⟨2025, 9, 12⟩, "小樹", 1000, 500, "m"⟩
        ["乙", "甲"] ["乙"] "w").records.map (fun r => (r.member_name, r.cost_paid)) =
      [(COMPANY_NAME, 334), ("乙", 333), ("甲", 333)] := by
  have h := c8_merge_even_split_ignores_override dbMerge ⟨2025, 9, 12⟩ ["乙"]
    "小樹" (some 7777) true "w" ⟨0, ⟨2025, 9, 12⟩, "小樹", 1000, 500, "m"⟩
    (by decide)
  refine ⟨h.1, ?_⟩
  have h2 := (h.2 0 (mergeProjectWrite dbMerge ⟨2025, 9, 12⟩
      ⟨0, ⟨2025, 9, 12⟩, "小樹", 1000, 500, "m"⟩ ["乙", "甲"] ["乙"] "w")
    (by decide)).2
  rw [h2]
  decide

/- ## C10 -/

/-- C10: (a) every Project created by the linked path carries the marker
`member_cost_pool = total_fixed_cost`; (b) every Project created by the
standard path with positive cost has `member_cost_pool < total_fixed_cost`
(the pool is the half); and (c) the settlement's consumed-unit count
(`linkedActivityDays`, which filters on exactly that marker and on the
month of any year) counts a zero-cost standard-mode Project at a linked
Location as one consumed unit. -/
theorem c10_pool_marker_and_consumed_units :
    (∀ (db : DB) (d : Date) (ms : List String) (loc : String)
        (mc : Option Nat) (std : Bool) (msg : String) (pid : Nat) (db' : DB),
      recordExpenseCore db d ms loc mc std msg = .createdLinked pid db' →
      ∀ p ∈ db'.projects, p ∉ db.projects →
        p.member_cost_pool = p.total_fixed_cost) ∧
    (∀ (db : DB) (d : Date) (ms : List String) (loc : String)
        (mc : Option Nat) (std : Bool) (msg : String) (pid : Nat) (db' : DB),
      recordExpenseCore db d ms loc mc std msg = .createdStandard pid db' →
      ∀ p ∈ db'.projects, p ∉ db.projects → 0 < p.total_fixed_cost →
        p.member_cost_pool < p.total_fixed_cost) ∧
    (∀ (db : DB) (d : Date) (ms : List String) (loc : String) (msg : String)
        (pid : Nat) (db' : DB) (cfg : LocationCfg) (iname : String),
      lookupLocation db loc = some cfg →
      cfg.linked_monthly_item = some iname →
      recordExpenseCore db d ms loc (some 0) true msg = .createdStandard pid db' →
      linkedActivityDays db' d.month iname =
        linkedActivityDays db d.month iname + 1) := by
  refine ⟨?_, ?_, ?_⟩
  · intro db d ms loc mc std msg pid db' h p hp hnot
    obtain ⟨C0, iname, item, hproj, hloc, hstd, hitem, hnodup, hins, hpid, hdb⟩ :=
      createdLinked_inv h
    subst hdb
    have hp' : p ∈ db.projects ++
        [⟨db.next_pid, d, loc, mc.getD C0 + item.default_cost,
          mc.getD C0 + item.default_cost, msg⟩] := hp
    rcases List.mem_append.mp hp' with hold | hnew
    · exact absurd hold hnot
    · rcases List.mem_singleton.mp hnew with rfl
      rfl
  · intro db d ms loc mc std msg pid db' h p hp hnot hpos
    obtain ⟨C0, link, hproj, hloc, hstd, hnodup, hins, hpid, hdb⟩ :=
      createdStandard_inv h
    subst hdb
    have hp' : p ∈ db.projects ++
        [⟨db.next_pid, d, loc, mc.getD C0, mc.getD C0 / 2, msg⟩] := hp
    rcases List.mem_append.mp hp' with hold | hnew
    · exact absurd hold hnot
    · rcases List.mem_singleton.mp hnew with rfl
      exact Nat.div_lt_self hpos (by omega)
  · intro db d ms loc msg pid db' cfg iname hcfg hlink h
    obtain ⟨C0, link, hproj, hloc, hstd, hnodup, hins, hpid, hdb⟩ :=
      createdStandard_inv h
    subst hdb
    exact linkedActivityDays_snoc db _ ⟨db.next_pid, d, loc, 0, 0 / 2, msg⟩
      d.month iname rfl rfl
      (List.elem_eq_true_of_mem (mem_linkedLocationNames_of_lookup hcfg hlink))
      rfl (by simp)

/-- Witness for C10: a linked create at 總站 yields the 1600 = 1600
marker; a standard 1000 create at 小樹 yields pool 500 < 1000; and a
zero-cost forced-standard entry at the linked 總站 raises the September
consumed-unit count of 租 from 0 to 1. -/
theorem c10_pool_marker_and_consumed_units_witness :
    ((⟨0, ⟨2025, 9, 12⟩, "總站", 1600, 1600, "w"⟩ :
        ProjectRow).member_cost_pool =
      (⟨0, ⟨2025, 9, 12⟩, "總站", 1600, 1600, "w"⟩ :
        ProjectRow).total_fixed_cost) ∧
    ((⟨0, ⟨2025, 9, 12⟩, "小樹", 1000, 500, "w"⟩ :
        ProjectRow).member_cost_pool <
      (⟨0, ⟨2025, 9, 12⟩, "小樹", 1000, 500, "w"⟩ :
        ProjectRow).total_fixed_cost) ∧
    linkedActivityDays
      (standardProjectWrite dbEx ⟨2025, 9, 12⟩ ["甲"] "總站" 0 "w") 9 "租" =
      linkedActivityDays dbEx 9 "租" + 1 := by
  refine ⟨?_, ?_, ?_⟩
  · exact c10_pool_marker_and_consumed_units.1 dbEx ⟨2025, 9, 12⟩ ["甲"] "總站"
      none false "w" 0
      (linkedProjectWrite dbEx ⟨2025, 9, 12⟩ ["甲"] "總站" 1600 "w")
      (by decide) ⟨0, ⟨2025, 9, 12⟩, "總站", 1600, 1600, "w"⟩ (by decide)
      (by decide)
  · exact c10_pool_marker_and_consumed_units.2.1 dbEx ⟨2025, 9, 12⟩ ["甲"] "小樹"
      (some 1000) false "w" 0
      (standardProjectWrite dbEx ⟨2025, 9, 12⟩ ["甲"] "小樹" 1000 "w")
      (by decide) ⟨0, ⟨2025, 9, 12⟩, "小樹", 1000, 500, "w"⟩ (by decide)
      (by decide) (by decide)
  · exact c10_pool_marker_and_consumed_units.2.2 dbEx ⟨2025, 9, 12⟩ ["甲"] "總站"
      "w" 0 (standardProjectWrite dbEx ⟨2025, 9, 12⟩ ["甲"] "總站" 0 "w")
      ⟨600, 800, some "租"⟩ "租" (by decide) (by decide) (by decide)

/- ## C2 -/

/-- The deduction of the settlement code is always the consumed-day count
times the item's configured base cost (both guard branches collapse). -/
lemma totalFixedCostDeducted_eq (db : DB) (m : Nat) (iname : String) (dc : Nat) :
    totalFixedCostDeducted db m iname dc =
      linkedActivityDays db m iname * dc := by
  unfold totalFixedCostDeducted
  by_cases hl : (linkedLocationNames db iname).isEmpty
  · have hdays : linkedActivityDays db m iname = 0 := by
      unfold linkedActivityDays
      rw [List.length_eq_zero, List.filter_eq_nil_iff]
      intro p hp
      rw [List.isEmpty_iff] at hl
      simp [hl]
    simp [hl, hdays]
  · simp only [hl, Bool.not_false, if_true]
    by_cases hd : 0 < linkedActivityDays db m iname
    · simp [hd]
    · have : linkedActivityDays db m iname = 0 := by omega
      simp [this]

/-- Counterexample to C2 as stated: item 租 (base cost 1000) invoiced at
9000 for November 2025 with three linked-mode events and an
all-days weekday mask (capacity 30, spec-modelled — the code's `locations`
table has no weekday mask at all): the spec formula gives
`round(3 × 9000/30) = 900`, but the code deducts `3 × 1000 = 3000`,
independent of any capacity. -/
theorem c2_counterexample :
    settleMonthlyCore dbSettleEx ⟨2025, 11, 30⟩ 11 "租" 9000 [] "s" =
      .settled 3000 6000 0 (settleWrite dbSettleEx ⟨2025, 11, 1⟩ "租"
        ["甲", "乙", "丙"] 6000 "s") ∧
    countMatchingWeekdays 2025 11 [0, 1, 2, 3, 4, 5, 6] = 30 ∧
    specDeductedAmount 3 9000 30 = 900 ∧
    (3000 : Nat) ≠ 900 := by
  refine ⟨by decide, by decide, ?_, by decide⟩
  unfold specDeductedAmount
  norm_num

/-- C2 (amended): whatever deduction a settlement command reports —
whether it then over-collects, fully absorbs, or settles — equals
`linkedActivityDays × default_cost`, the number of linked-mode project
days in the target month times the item's *configured base cost*: it does
not depend on the invoice amount, and no capacity, unit price, rounding or
capacity override exists in the code. -/
theorem c2_deduction_is_days_times_default_cost
    (db : DB) (today : Date) (m : Nat) (itemName : String) (A : Int)
    (sms : List String) (msg : String) (dd : Nat)
    (h : (settleMonthlyCore db today m itemName A sms msg).deductedOf = some dd) :
    ∃ it, lookupMonthlyItem db itemName = some it ∧
      dd = linkedActivityDays db m itemName * it.default_cost := by
  unfold settleMonthlyCore at h
  split at h
  · exact absurd h (by simp [SettleResult.deductedOf])
  · rename_i item hitem
    split at h
    · exact absurd h (by simp [SettleResult.deductedOf])
    · simp only [] at h
      split at h
      · exact absurd h (by simp [SettleResult.deductedOf])
      · split at h
        · exact absurd h (by simp [SettleResult.deductedOf])
        · split at h
          · simp only [SettleResult.deductedOf, Option.some.injEq] at h
            exact ⟨item, hitem, by rw [← h, totalFixedCostDeducted_eq]⟩
          · split at h
            · simp only [SettleResult.deductedOf, Option.some.injEq] at h
              exact ⟨item, hitem, by rw [← h, totalFixedCostDeducted_eq]⟩
            · split at h
              · simp only [SettleResult.deductedOf, Option.some.injEq] at h
                exact ⟨item, hitem, by rw [← h, totalFixedCostDeducted_eq]⟩
              · exact absurd h (by simp [SettleResult.deductedOf])

/-- Witness for C2 (amended): the same three November events produce the
deduction 3000 = 3 × 1000 under invoice 9000 and under invoice 20000
alike. -/
theorem c2_deduction_is_days_times_default_cost_witness :
    (settleMonthlyCore dbSettleEx ⟨2025, 11, 30⟩ 11 "租" 9000 [] "s").deductedOf =
      some 3000 ∧
    (settleMonthlyCore dbSettleEx ⟨2025, 11, 30⟩ 11 "租" 20000 [] "s").deductedOf =
      some 3000 ∧
    linkedActivityDays dbSettleEx 11 "租" * 1000 = 3000 := by
  refine ⟨by decide, by decide, ?_⟩
  obtain ⟨it, hit, hdd⟩ := c2_deduction_is_days_times_default_cost dbSettleEx
    ⟨2025, 11, 30⟩ 11 "租" 9000 [] "s" 3000 (by decide)
  have hiteq : it = ⟨1000, ["甲", "乙", "丙"]⟩ := by
    rw [show lookupMonthlyItem dbSettleEx "租" =
      some ⟨1000, ["甲", "乙", "丙"]⟩ from by decide] at hit
    simpa using hit.symm
  subst hiteq
  exact hdd.symm

/-- Witness for C6: invoice 9000, deduction 3000 — the four written
Records (1500 each) sum to the remainder 6000, not to 9000. -/
theorem c6_settlement_records_sum_eq_remainder_witness :
    dbOk dbSettleEx = true ∧
    settleMonthlyCore dbSettleEx ⟨2025, 11, 30⟩ 11 "租" 9000 [] "s" =
      .settled 3000 6000 0 (settleWrite dbSettleEx ⟨2025, 11, 1⟩ "租"
        ["甲", "乙", "丙"] 6000 "s") ∧
    settleRecordsSum (settleWrite dbSettleEx ⟨2025, 11, 1⟩ "租"
      ["甲", "乙", "丙"] 6000 "s") 0 = 6000 := by
  refine ⟨by decide, by decide, ?_⟩
  have h := c6_settlement_records_sum_eq_remainder dbSettleEx ⟨2025, 11, 30⟩
    11 "租" 9000 [] "s" 3000 6000 0
    (settleWrite dbSettleEx ⟨2025, 11, 1⟩ "租" ["甲", "乙", "丙"] 6000 "s")
    (by decide) (by decide)
  exact h.2.2.1

/- ## C7 -/

/-- Counterexample to C7 as stated: on `9/12(五) 人 地 100+50` the trailing
arithmetic expression `100+50` (spec value 150) is *not* taken as a cost
override — the parse succeeds with `manual_cost = none` and `100+50`
becomes an extra member token. -/
theorem c7_counterexample :
    (parseRecordCommand ⟨2025, 10, 12⟩ "9/12(五) 人 地 100+50".toList).toOption =
      some ⟨⟨2025, 9, 12⟩, '五', ["人", "100+50"], "地", none, false⟩ ∧
    specEvalExpr "100+50".toList = some 150 := by
  refine ⟨by decide, by decide⟩

/-- C7 (amended): the only cost override `parse_record_command` accepts is
a trailing whitespace-separated run of decimal digits — whenever the
manual-cost extraction fires, the candidate token consists of digits only
(so no `+ - * /` arithmetic expression is ever accepted), its value is
read as a decimal integer, and the rest of the text is the part left of
the separating whitespace, stripped. -/
theorem c7_cost_override_is_trailing_digit_run
    (cs : List Char) (n : Nat) (rest : List Char)
    (h : extractTrailingCost cs = (some n, rest)) :
    ∃ pre ws ds, cs = pre ++ ws :: ds ∧ isSpaceChar ws = true ∧
      ds ≠ [] ∧ (∀ c ∈ ds, isDigitChar c = true) ∧ natOfDigits ds = n ∧
      rest = stripChars pre := by
  unfold extractTrailingCost at h
  simp only [] at h
  set front := (cs.reverse.dropWhile isDigitChar).reverse with hfrontdef
  set tw := (cs.reverse.takeWhile isDigitChar).reverse with htwdef
  have hcs : cs = front ++ tw := by
    rw [hfrontdef, htwdef]
    conv_lhs => rw [← List.reverse_reverse cs,
      ← List.takeWhile_append_dropWhile (p := isDigitChar) (l := cs.reverse)]
    rw [List.reverse_append]
  have hlen : cs.length - tw.length = front.length := by
    rw [hcs]
    simp
  have hfront2 : List.take (cs.length - tw.length) cs = front := by
    rw [hlen]
    conv_lhs => rw [hcs]
    exact List.take_left _ _
  rw [hfront2] at h
  rcases htw : tw with _ | ⟨c0, ds'⟩
  · rw [htw] at h
    simp at h
  · rw [htw] at h
    rcases hlast : front.getLast? with _ | c
    · rw [hlast] at h
      simp at h
    · rw [hlast] at h
      by_cases hsp : isSpaceChar c = true
      · simp only [hsp, if_true, Prod.mk.injEq, Option.some.injEq] at h
        have hfront_ne : front ≠ [] := by
          intro hemp
          rw [hemp] at hlast
          simp at hlast
        have hfront_eq : front.dropLast ++ [c] = front := by
          have h1 := List.dropLast_append_getLast hfront_ne
          have h3 := List.getLast?_eq_getLast front hfront_ne
          rw [hlast] at h3
          have h2 : front.getLast hfront_ne = c := by
            simpa using h3.symm
          rw [h2] at h1
          exact h1
        refine ⟨front.dropLast, c, c0 :: ds', ?_, hsp, by simp, ?_, ?_, ?_⟩
        · conv_lhs => rw [hcs, htw, ← hfront_eq]
          simp
        · intro x hx
          have hx' : x ∈ tw := by
            rw [htw]
            exact hx
          rw [htwdef, List.mem_reverse] at hx'
          exact List.mem_takeWhile_imp hx'
        · exact h.1
        · exact h.2.symm
      · simp only [hsp, if_false] at h
        simp at h

/-- Witness for C7 (amended): `人 地 500` decomposes as
`"人 地" ++ ' ' :: "500"` — a space separator, an all-digit run of value
500, remaining text `人 地`. -/
theorem c7_cost_override_is_trailing_digit_run_witness :
    ∃ pre ws ds, "人 地 500".toList = pre ++ ws :: ds ∧
      isSpaceChar ws = true ∧ ds ≠ [] ∧
      (∀ c ∈ ds, isDigitChar c = true) ∧ natOfDigits ds = 500 ∧
      "人 地".toList = stripChars pre := by
  obtain ⟨pre, ws, ds, h1, h2, h3, h4, h5, h6⟩ :=
    c7_cost_override_is_trailing_digit_run "人 地 500".toList 500
      "人 地".toList (by decide)
  exact ⟨pre, ws, ds, h1, h2, h3, h4, h5, h6.symm ▸ rfl⟩
